import Mathlib

/-
Verification of the s3-disk-usage bucket-statistics pipeline
(`b_process_bucket_contents.py`) against its specification.

The Python data structures are shallowly embedded:
  * a Python dict is an insertion-ordered association list (`Dict`);
    `dictInsert` updates an existing key in place and appends a new key,
    exactly as CPython dicts do;
  * a row dict (delete summary / version summary / reconciled entry) is a
    record of `Option`-valued fields, where `none` models an absent key;
  * any operation that can raise (`KeyError` on a missing field,
    `IndexError` in `is_folder`, `TypeError` on `int + None`,
    `ZeroDivisionError`, the explicit `raise` in `get_file_stats`)
    is `Option`-valued, `none` marking the raise;
  * Python `int` is `Nat` (sizes, counts) and true division is exact
    division in `Rat`; timestamps are `Nat` (only their ordering is used);
  * in-place mutation through aliased references is modeled by threading
    the observable state of each dict explicitly
    (`combine_deleted_and_versions_st` returns both the result map and the
    post-call state of the `versions` argument, whose row objects the
    source mutates through the aliases stored in the result).
-/

set_option maxHeartbeats 1000000

namespace S3Usage

/-- Insertion-ordered association list, modeling a Python dict keyed by strings. -/
abbrev Dict (α : Type) : Type := List (String × α)

/-- Lookup `d[k]`, returning the value at the first (unique, in a real dict)
occurrence of `k`. -/
def dictFind {α : Type} (d : Dict α) (k : String) : Option α :=
  match d with
  | [] => none
  | (k1, v) :: rest => if k1 = k then some v else dictFind rest k

/-- Assignment `d[k] = v`: replace the value at an existing key in place,
or append a new key at the end, as CPython dicts do. -/
def dictInsert {α : Type} (d : Dict α) (k : String) (v : α) : Dict α :=
  match d with
  | [] => [(k, v)]
  | (k1, v1) :: rest => if k1 = k then (k1, v) :: rest else (k1, v1) :: dictInsert rest k v

/-- The key list of a dict, in insertion order. -/
def dictKeys {α : Type} (d : Dict α) : List String := d.map Prod.fst

/-- One element of the input `DeleteMarkers` array. -/
structure DeleteMarkerRecord where
  Key : String
  LastModified : Nat
  deriving DecidableEq

/-- One element of the input `Versions` array. -/
structure VersionRecord where
  Key : String
  LastModified : Nat
  Size : Nat
  IsLatest : Bool
  deriving DecidableEq

/-- A row dict of the pipeline (delete summary, version summary, or reconciled
entry).  Each field models one possible dict key; `none` means the key is
absent.  `lastest_modified` is the misspelled field name that the source
writes on its timestamp-update path. -/
structure Row where
  latest_modified : Option Nat := none
  lastest_modified : Option Nat := none
  total_size : Option Nat := none
  num_versions : Option Nat := none
  average_size : Option Rat := none
  latest_size : Option Nat := none
  status : Option String := none
  is_folder : Option Bool := none
  last_modified : Option Nat := none
  deriving DecidableEq

/-- The status string "present". -/
def sPresent : String := "present"

/-- The status string "deleted". -/
def sDeleted : String := "deleted"

/-- The path separator character compared against in `is_folder`. -/
def slash : Char := '/'

/-- Python string indexing `s[i]`: negative indices count from the end,
out-of-range indices raise `IndexError` (modeled as `none`). -/
def pyStrIndex (s : String) (i : Int) : Option Char :=
  if i < 0 then
    if i + (s.length : Int) < 0 then none
    else s.data.get? (i + (s.length : Int)).toNat
  else s.data.get? i.toNat

/-- Source `is_folder` (lines 115-125): index position `len(filename) - 1`
and compare the character with "/".  On the empty string the index is `-1`,
which is out of bounds, so the access raises (`none`). -/
def is_folder (filename : String) : Option Bool :=
  match pyStrIndex filename ((filename.length : Int) - 1) with
  | none => none
  | some c => some (c == slash)

/-- The loop of `process_deletes` (lines 38-58).  On a repeated key with a
strictly greater timestamp the source writes the misspelled key
`"lastest_modified"`, leaving `latest_modified` unchanged. -/
def deletesLoop : List DeleteMarkerRecord → Dict Row → Option (Dict Row)
  | [], retval => some retval
  | row :: rest, retval =>
    let key := row.Key
    let date := row.LastModified
    match dictFind retval key with
    | none => deletesLoop rest (dictInsert retval key { latest_modified := some date })
    | some r =>
      match r.latest_modified with
      | none => none
      | some lm =>
        if date > lm then
          deletesLoop rest (dictInsert retval key { r with lastest_modified := some date })
        else
          deletesLoop rest retval

/-- Source `process_deletes` (lines 34-60). -/
def process_deletes (data : List DeleteMarkerRecord) : Option (Dict Row) :=
  deletesLoop data []

/-- The main loop of `process_versions` (lines 69-102).  A repeated key gets
its size added and version count bumped, and — as in `process_deletes` —
a strictly greater timestamp is written to the misspelled field
`"lastest_modified"`.  For an `IsLatest` record of a non-folder key the
size is recorded as `latest_size`. -/
def versionsLoop : List VersionRecord → Dict Row → Option (Dict Row)
  | [], retval => some retval
  | row :: rest, retval => do
    let key := row.Key
    let date := row.LastModified
    let size := row.Size
    let retval1 ←
      match dictFind retval key with
      | none =>
        some (dictInsert retval key
          { latest_modified := some date, total_size := some size, num_versions := some 1 })
      | some r => do
        let ts ← r.total_size
        let nv ← r.num_versions
        let r1 : Row := { r with total_size := some (ts + size), num_versions := some (nv + 1) }
        let lm ← r1.latest_modified
        let r2 := if date > lm then { r1 with lastest_modified := some date } else r1
        some (dictInsert retval key r2)
    let retval2 ←
      if row.IsLatest then do
        let f ← is_folder key
        if !f then
          match dictFind retval1 key with
          | none => none
          | some r => some (dictInsert retval1 key { r with latest_size := some size })
        else
          some retval1
      else
        some retval1
    versionsLoop rest retval2

/-- The closing loop of `process_versions` (lines 107-110): set
`average_size = total_size / num_versions` on every row (true division;
a zero count would raise `ZeroDivisionError`). -/
def averageLoop : List (String × Row) → Option (Dict Row)
  | [] => some []
  | (key, row) :: rest => do
    let size ← row.total_size
    let num ← row.num_versions
    if num = 0 then none
    else do
      let rest1 ← averageLoop rest
      some ((key, { row with average_size := some ((size : Rat) / (num : Rat)) }) :: rest1)

/-- Source `process_versions` (lines 63-112). -/
def process_versions (data : List VersionRecord) : Option (Dict Row) := do
  let retval ← versionsLoop data []
  averageLoop retval

/-- The key used in the concrete examples below. -/
def aKey : String := "a"

/-- Claim C1 (code bug): on the failing input — two delete markers for the
same key with timestamps 1 then 2, and two versions for the same key with
timestamps 1 then 2 — both normalizers leave `latest_modified` at the first
timestamp 1 instead of updating it to the maximum 2 as the claim states,
writing the later timestamp to the misspelled field `lastest_modified`
instead. -/
theorem claim_C1 :
    process_deletes [⟨aKey, 1⟩, ⟨aKey, 2⟩] =
      some [(aKey, { latest_modified := some 1, lastest_modified := some 2 })] ∧
    process_versions [⟨aKey, 1, 100, false⟩, ⟨aKey, 2, 50, true⟩] =
      some [(aKey, { latest_modified := some 1, lastest_modified := some 2,
                     total_size := some 150, num_versions := some 2,
                     average_size := some ((150 : Rat) / (2 : Rat)),
                     latest_size := some 50 })] := by
  constructor
  · decide
  · have hf : is_folder aKey = some false := by decide
    simp [process_versions, versionsLoop, averageLoop, dictFind, dictInsert, hf]

theorem dictFind_insert_self {α : Type} (d : Dict α) (k : String) (v : α) :
    dictFind (dictInsert d k v) k = some v := by
  induction d with
  | nil => simp [dictInsert, dictFind]
  | cons hd tl ih =>
    obtain ⟨k1, v1⟩ := hd
    by_cases h : k1 = k <;> simp [dictInsert, dictFind, h, ih]

theorem dictFind_insert_ne {α : Type} (d : Dict α) (k k' : String) (v : α) (h : k ≠ k') :
    dictFind (dictInsert d k v) k' = dictFind d k' := by
  induction d with
  | nil => simp [dictInsert, dictFind, h]
  | cons hd tl ih =>
    obtain ⟨k1, v1⟩ := hd
    by_cases h1 : k1 = k
    · subst h1
      simp [dictInsert, dictFind, h]
    · simp [dictInsert, dictFind, h1, ih]

theorem mem_dictKeys_insert {α : Type} (d : Dict α) (k : String) (v : α) (k' : String) :
    k' ∈ dictKeys (dictInsert d k v) ↔ k' ∈ dictKeys d ∨ k' = k := by
  induction d with
  | nil => simp [dictInsert, dictKeys]
  | cons hd tl ih =>
    obtain ⟨k1, v1⟩ := hd
    by_cases h : k1 = k
    · subst h
      simp [dictInsert, dictKeys]
      tauto
    · simp [dictInsert, dictKeys, h] at ih ⊢
      tauto

theorem dictKeys_cons {α : Type} (k1 : String) (v1 : α) (tl : Dict α) :
    dictKeys ((k1, v1) :: tl) = k1 :: dictKeys tl := rfl

theorem mem_dictKeys_cons {α : Type} (k k1 : String) (v1 : α) (tl : Dict α) :
    k ∈ dictKeys ((k1, v1) :: tl) ↔ k = k1 ∨ k ∈ dictKeys tl := by
  rw [dictKeys_cons]
  simp

theorem dictKeys_insert_mem {α : Type} (d : Dict α) (k : String) (v : α)
    (h : k ∈ dictKeys d) : dictKeys (dictInsert d k v) = dictKeys d := by
  induction d with
  | nil => simp [dictKeys] at h
  | cons hd tl ih =>
    obtain ⟨k1, v1⟩ := hd
    by_cases h1 : k1 = k
    · subst h1
      simp [dictInsert, dictKeys]
    · rw [mem_dictKeys_cons] at h
      rcases h with h | h

      · exact absurd h.symm h1
      · simp only [dictInsert, if_neg h1, dictKeys_cons, ih h]

theorem dictKeys_insert_not_mem {α : Type} (d : Dict α) (k : String) (v : α)
    (h : k ∉ dictKeys d) : dictKeys (dictInsert d k v) = dictKeys d ++ [k] := by
  induction d with
  | nil => simp [dictInsert, dictKeys]
  | cons hd tl ih =>
    obtain ⟨k1, v1⟩ := hd
    rw [mem_dictKeys_cons] at h
    push_neg at h
    have h1 : ¬ k1 = k := fun hh => h.1 hh.symm
    simp only [dictInsert, if_neg h1, dictKeys_cons, ih h.2, List.cons_append]

theorem dictKeys_insert_nodup {α : Type} (d : Dict α) (k : String) (v : α)
    (h : (dictKeys d).Nodup) : (dictKeys (dictInsert d k v)).Nodup := by
  by_cases hm : k ∈ dictKeys d
  · rw [dictKeys_insert_mem d k v hm]
    exact h
  · rw [dictKeys_insert_not_mem d k v hm]
    simp [List.nodup_append, h, hm]

theorem dictFind_isSome_iff {α : Type} (d : Dict α) (k : String) :
    (dictFind d k).isSome ↔ k ∈ dictKeys d := by
  induction d with
  | nil => simp [dictFind, dictKeys]
  | cons hd tl ih =>
    obtain ⟨k1, v1⟩ := hd
    by_cases h : k1 = k
    · subst h
      simp [dictFind, dictKeys]
    · simp [dictFind, dictKeys, h, Ne.symm h, ih]

theorem dictFind_eq_none_iff {α : Type} (d : Dict α) (k : String) :
    dictFind d k = none ↔ k ∉ dictKeys d := by
  rw [← dictFind_isSome_iff]
  cases dictFind d k <;> simp

/-- The row produced for one `versions` entry by the merge loop of
`combine_deleted_and_versions` (lines 139-166), given the row found for the
same key in the accumulator (`none` when the key has no delete marker):
status becomes "present", unless the key has a delete marker with a strictly
later timestamp, in which case status becomes "deleted" and the delete
timestamp is kept as `last_modified`; finally `is_folder` is computed from
the key. -/
def combineRow (dopt : Option Row) (row : Row) (key : String) : Option Row := do
  let row1 ←
    match dopt with
    | none => some { row with status := some sPresent }
    | some dr => do
      let date_deleted ← dr.latest_modified
      let date_version ← row.latest_modified
      let r : Row := { row with status := some sPresent }
      some (if date_deleted > date_version
        then { r with status := some sDeleted, last_modified := some date_deleted }
        else r)
  let f ← is_folder key
  some { row1 with is_folder := some f }

/-- One iteration of the merge loop: the state is the pair
(`retval` — which aliases the `delete_markers` argument — , observable state
of the `versions` argument).  The final value of the mutated row object is
stored both in `retval` and, through the alias, in the `versions` dict. -/
def combineStep (st : Dict Row × Dict Row) (kv : String × Row) :
    Option (Dict Row × Dict Row) := do
  let r2 ← combineRow (dictFind st.1 kv.1) kv.2 kv.1
  some (dictInsert st.1 kv.1 r2, dictInsert st.2 kv.1 r2)

/-- The merge loop over the `versions` items (lines 139-166). -/
def combineLoop : List (String × Row) → Dict Row × Dict Row → Option (Dict Row × Dict Row)
  | [], st => some st
  | kv :: rest, st =>
    match combineStep st kv with
    | none => none
    | some st1 => combineLoop rest st1

/-- The fix-up applied to one combined entry by the closing loop
(lines 178-184): a key with no version summary is forced to
status "deleted", `is_folder` from the key, zero size and zero versions. -/
def combineFinal (versions : Dict Row) (kv : String × Row) : Option (String × Row) :=
  if (dictFind versions kv.1).isSome then some kv
  else do
    let f ← is_folder kv.1
    some (kv.1,
      { kv.2 with status := some sDeleted, is_folder := some f,
                  total_size := some 0, num_versions := some 0 })

/-- The closing loop of `combine_deleted_and_versions` (lines 178-184),
mutating each delete-marker-only row in place. -/
def combineFinalLoop (versions : Dict Row) : List (String × Row) → Option (Dict Row)
  | [] => some []
  | kv :: rest => do
    let kv1 ← combineFinal versions kv
    let rest1 ← combineFinalLoop versions rest
    some (kv1 :: rest1)

/-- Source `combine_deleted_and_versions` (lines 128-186), with the
observable state of both mutable arguments made explicit.  `retval` is the
`delete_markers` dict itself (line 134), so the returned map is the
post-call state of `delete_markers`; the second component is the post-call
state of `versions`, whose row objects are aliased into the result by
`retval[key] = row` and mutated through that alias. -/
def combine_deleted_and_versions_st (delete_markers versions : Dict Row) :
    Option (Dict Row × Dict Row) := do
  let rv ← combineLoop versions (delete_markers, versions)
  let retval ← combineFinalLoop versions rv.1
  some (retval, rv.2)

/-- The value returned by `combine_deleted_and_versions`. -/
def combine_deleted_and_versions (delete_markers versions : Dict Row) :
    Option (Dict Row) :=
  (combine_deleted_and_versions_st delete_markers versions).map Prod.fst

theorem combineStep_some {st : Dict Row × Dict Row} {kv : String × Row}
    {st' : Dict Row × Dict Row} (h : combineStep st kv = some st') :
    ∃ r2, combineRow (dictFind st.1 kv.1) kv.2 kv.1 = some r2 ∧
      st' = (dictInsert st.1 kv.1 r2, dictInsert st.2 kv.1 r2) := by
  cases hr : combineRow (dictFind st.1 kv.1) kv.2 kv.1 with
  | none => simp [combineStep, hr] at h
  | some r2 =>
    refine ⟨r2, rfl, ?_⟩
    simp [combineStep, hr] at h
    exact h.symm

theorem combineLoop_find_not_mem (l : List (String × Row)) :
    ∀ (st st' : Dict Row × Dict Row) (k : String), k ∉ dictKeys l →
      combineLoop l st = some st' →
      dictFind st'.1 k = dictFind st.1 k ∧ dictFind st'.2 k = dictFind st.2 k := by
  induction l with
  | nil =>
    intro st st' k _ h
    simp [combineLoop] at h
    subst h
    exact ⟨rfl, rfl⟩
  | cons kv rest ih =>
    intro st st' k hk h
    rw [mem_dictKeys_cons] at hk
    push_neg at hk
    cases hs : combineStep st kv with
    | none => simp [combineLoop, hs] at h
    | some st1 =>
      simp only [combineLoop, hs] at h
      obtain ⟨r2, _, hst1⟩ := combineStep_some hs
      have h1 := ih st1 st' k hk.2 h
      rw [hst1] at h1
      simp only [dictFind_insert_ne _ _ _ _ (fun hh => hk.1 hh.symm)] at h1
      exact h1

theorem combineLoop_find_mem (l : List (String × Row)) :
    ∀ (st st' : Dict Row × Dict Row) (k : String) (row : Row),
      (dictKeys l).Nodup → dictFind l k = some row →
      combineLoop l st = some st' →
      ∃ r2, combineRow (dictFind st.1 k) row k = some r2 ∧
        dictFind st'.1 k = some r2 ∧ dictFind st'.2 k = some r2 := by
  induction l with
  | nil =>
    intro st st' k row _ hfind _
    simp [dictFind] at hfind
  | cons kv rest ih =>
    intro st st' k row hnd hfind h
    obtain ⟨k1, r1⟩ := kv
    rw [dictKeys_cons, List.nodup_cons] at hnd
    cases hs : combineStep st (k1, r1) with
    | none => simp [combineLoop, hs] at h
    | some st1 =>
      simp only [combineLoop, hs] at h
      obtain ⟨r2, hrow, hst1⟩ := combineStep_some hs
      by_cases hkk : k1 = k
      · subst hkk
        have hr : row = r1 := by
          simp [dictFind] at hfind
          exact hfind.symm
        subst hr
        have h1 := combineLoop_find_not_mem rest st1 st' k1 hnd.1 h
        rw [hst1] at h1
        simp only [dictFind_insert_self] at h1
        exact ⟨r2, hrow, h1.1, h1.2⟩
      · have hfind' : dictFind rest k = some row := by
          simpa [dictFind, hkk] using hfind
        have h1 := ih st1 st' k row hnd.2 hfind' h
        rw [hst1] at h1
        simpa only [dictFind_insert_ne _ _ _ _ hkk] using h1

theorem combineLoop_keys (l : List (String × Row)) :
    ∀ (st st' : Dict Row × Dict Row), combineLoop l st = some st' →
      ∀ k, k ∈ dictKeys st'.1 ↔ k ∈ dictKeys st.1 ∨ k ∈ dictKeys l := by
  induction l with
  | nil =>
    intro st st' h k
    simp [combineLoop] at h
    subst h
    simp [dictKeys]
  | cons kv rest ih =>
    intro st st' h k
    obtain ⟨k1, r1⟩ := kv
    cases hs : combineStep st (k1, r1) with
    | none => simp [combineLoop, hs] at h
    | some st1 =>
      simp only [combineLoop, hs] at h
      obtain ⟨r2, _, hst1⟩ := combineStep_some hs
      have h1 := ih st1 st' h k
      rw [hst1] at h1
      rw [h1, mem_dictKeys_insert, mem_dictKeys_cons]
      tauto

theorem combineLoop_nodup (l : List (String × Row)) :
    ∀ (st st' : Dict Row × Dict Row), (dictKeys st.1).Nodup →
      combineLoop l st = some st' → (dictKeys st'.1).Nodup := by
  induction l with
  | nil =>
    intro st st' hnd h
    simp [combineLoop] at h
    subst h
    exact hnd
  | cons kv rest ih =>
    intro st st' hnd h
    cases hs : combineStep st kv with
    | none => simp [combineLoop, hs] at h
    | some st1 =>
      simp only [combineLoop, hs] at h
      obtain ⟨r2, _, hst1⟩ := combineStep_some hs
      refine ih st1 st' ?_ h
      rw [hst1]
      exact dictKeys_insert_nodup _ _ _ hnd

theorem combineFinal_fst {versions : Dict Row} {kv kv' : String × Row}
    (h : combineFinal versions kv = some kv') : kv'.1 = kv.1 := by
  by_cases hm : (dictFind versions kv.1).isSome
  · simp [combineFinal, hm] at h
    rw [← h]
  · cases hf : is_folder kv.1 with
    | none => simp [combineFinal, hm, hf] at h
    | some f =>
      simp [combineFinal, hm, hf] at h
      rw [← h]

theorem combineFinalLoop_keys (versions : Dict Row) (l : List (String × Row)) :
    ∀ l', combineFinalLoop versions l = some l' → dictKeys l' = dictKeys l := by
  induction l with
  | nil =>
    intro l' h
    simp [combineFinalLoop] at h
    subst h
    rfl
  | cons kv rest ih =>
    intro l' h
    cases h1 : combineFinal versions kv with
    | none => simp [combineFinalLoop, h1] at h
    | some kv1 =>
      cases h2 : combineFinalLoop versions rest with
      | none => simp [combineFinalLoop, h1, h2] at h
      | some rest1 =>
        simp [combineFinalLoop, h1, h2] at h
        subst h
        obtain ⟨ka, va⟩ := kv1
        obtain ⟨kb, vb⟩ := kv
        have := combineFinal_fst h1
        simp at this
        subst this
        rw [dictKeys_cons, dictKeys_cons, ih rest1 h2]

theorem combineFinalLoop_find (versions : Dict Row) (l : List (String × Row)) :
    ∀ l' (k : String) (r : Row), combineFinalLoop versions l = some l' →
      dictFind l k = some r →
      ∃ kv', combineFinal versions (k, r) = some kv' ∧ dictFind l' k = some kv'.2 := by
  induction l with
  | nil =>
    intro l' k r _ hfind
    simp [dictFind] at hfind
  | cons kv rest ih =>
    intro l' k r h hfind
    obtain ⟨k1, r1⟩ := kv
    cases h1 : combineFinal versions (k1, r1) with
    | none => simp [combineFinalLoop, h1] at h
    | some kv1 =>
      cases h2 : combineFinalLoop versions rest with
      | none => simp [combineFinalLoop, h1, h2] at h
      | some rest1 =>
        simp [combineFinalLoop, h1, h2] at h
        subst h
        have hk1 : kv1.1 = k1 := combineFinal_fst h1
        by_cases hkk : k1 = k
        · subst hkk
          have hr : r = r1 := by
            simp [dictFind] at hfind
            exact hfind.symm
          subst hr
          refine ⟨kv1, h1, ?_⟩
          obtain ⟨ka, va⟩ := kv1
          simp at hk1
          subst hk1
          simp [dictFind]
        · have hfind' : dictFind rest k = some r := by
            simpa [dictFind, hkk] using hfind
          obtain ⟨kv', hc, hf⟩ := ih rest1 k r h2 hfind'
          refine ⟨kv', hc, ?_⟩
          obtain ⟨ka, va⟩ := kv1
          simp at hk1
          subst hk1
          simpa [dictFind, hkk] using hf

theorem combine_st_some {d v : Dict Row} {p : Dict Row × Dict Row}
    (h : combine_deleted_and_versions_st d v = some p) :
    ∃ rv, combineLoop v (d, v) = some rv ∧
      combineFinalLoop v rv.1 = some p.1 ∧ p.2 = rv.2 := by
  cases hl : combineLoop v (d, v) with
  | none => simp [combine_deleted_and_versions_st, hl] at h
  | some rv =>
    cases hf : combineFinalLoop v rv.1 with
    | none => simp [combine_deleted_and_versions_st, hl, hf] at h
    | some retval =>
      simp [combine_deleted_and_versions_st, hl, hf] at h
      exact ⟨rv, rfl, by rw [← h]; exact hf, by rw [← h]⟩

theorem combine_some {d v m : Dict Row}
    (h : combine_deleted_and_versions d v = some m) :
    ∃ rv, combineLoop v (d, v) = some rv ∧ combineFinalLoop v rv.1 = some m := by
  simp only [combine_deleted_and_versions, Option.map_eq_some'] at h
  obtain ⟨p, hp, hm⟩ := h
  obtain ⟨rv, h1, h2, _⟩ := combine_st_some hp
  exact ⟨rv, h1, by rw [hm] at h2; exact h2⟩

/-- Claim C2: for every pair of input maps, the reconciled map contains
exactly the union of the two key sets, each key exactly once. -/
theorem claim_C2 (d v m : Dict Row) (hd : (dictKeys d).Nodup)
    (h : combine_deleted_and_versions d v = some m) :
    (dictKeys m).Nodup ∧ ∀ k, k ∈ dictKeys m ↔ (k ∈ dictKeys d ∨ k ∈ dictKeys v) := by
  obtain ⟨rv, h1, h2⟩ := combine_some h
  have hkeys := combineFinalLoop_keys v rv.1 m h2
  constructor
  · rw [hkeys]
    exact combineLoop_nodup v (d, v) rv hd h1
  · intro k
    rw [hkeys]
    exact combineLoop_keys v (d, v) rv h1 k

/-- Key used by concrete witnesses. -/
def xKey : String := "x"

/-- Second key used by concrete witnesses. -/
def yKey : String := "y"

/-- Delete-marker map for the C2 witness. -/
def dC2 : Dict Row := [(xKey, { latest_modified := some 5 })]

/-- Version map for the C2 witness. -/
def vC2 : Dict Row := [(yKey, { latest_modified := some 3, total_size := some 10,
                                num_versions := some 1 })]

/-- Reconciled map for the C2 witness. -/
def mC2 : Dict Row :=
  [(xKey, { latest_modified := some 5, status := some sDeleted, is_folder := some false,
            total_size := some 0, num_versions := some 0 }),
   (yKey, { latest_modified := some 3, total_size := some 10, num_versions := some 1,
            status := some sPresent, is_folder := some false })]

theorem claim_C2_witness :
    (dictKeys mC2).Nodup ∧
    (xKey ∈ dictKeys mC2 ↔ (xKey ∈ dictKeys dC2 ∨ xKey ∈ dictKeys vC2)) ∧
    (yKey ∈ dictKeys mC2 ↔ (yKey ∈ dictKeys dC2 ∨ yKey ∈ dictKeys vC2)) := by
  have h := claim_C2 dC2 vC2 mC2 (by decide) (by decide)
  exact ⟨h.1, h.2 xKey, h.2 yKey⟩

/-- Fields of the row built by the merge loop for one `versions` entry:
all size and count fields of the version summary are kept, and the built
row always carries a status and a folder flag. -/
theorem combineRow_fields {dopt : Option Row} {row : Row} {key : String} {r2 : Row}
    (h : combineRow dopt row key = some r2) :
    r2.latest_modified = row.latest_modified ∧ r2.total_size = row.total_size ∧
    r2.num_versions = row.num_versions ∧ r2.average_size = row.average_size ∧
    r2.latest_size = row.latest_size ∧ r2.status.isSome ∧ r2.is_folder.isSome := by
  cases dopt with
  | none =>
    cases hf : is_folder key with
    | none => simp [combineRow, hf] at h
    | some f =>
      simp [combineRow, hf] at h
      subst h
      simp
  | some dr =>
    cases hdd : dr.latest_modified with
    | none => simp [combineRow, hdd] at h
    | some dd =>
      cases hdv : row.latest_modified with
      | none => simp [combineRow, hdd, hdv] at h
      | some dv =>
        cases hf : is_folder key with
        | none => simp [combineRow, hdd, hdv, hf] at h
        | some f =>
          by_cases hcmp : dd > dv <;>
            simp [combineRow, hdd, hdv, hf, hcmp] at h <;>
            subst h <;> simp [hdv]

/-- Claim C3: a key present in both maps reconciles to status "deleted"
exactly when the delete timestamp is strictly greater than the version
timestamp (so equal timestamps give "present"); when deleted, the delete
timestamp is stored as the entry's `last_modified`, and in every case the
version summary's size, count, average and latest-size fields are copied
onto the reconciled entry. -/
theorem claim_C3 (d v m : Dict Row) (k : String) (dr vr : Row) (dd dv : Nat)
    (hv : (dictKeys v).Nodup)
    (hdk : dictFind d k = some dr) (hvk : dictFind v k = some vr)
    (hdd : dr.latest_modified = some dd) (hdv : vr.latest_modified = some dv)
    (h : combine_deleted_and_versions d v = some m) :
    (dictFind m k).map Row.status = some (some (if dd > dv then sDeleted else sPresent)) ∧
    (dd > dv → (dictFind m k).map Row.last_modified = some (some dd)) ∧
    (dictFind m k).map Row.total_size = some vr.total_size ∧
    (dictFind m k).map Row.num_versions = some vr.num_versions ∧
    (dictFind m k).map Row.average_size = some vr.average_size ∧
    (dictFind m k).map Row.latest_size = some vr.latest_size := by
  obtain ⟨rv, h1, h2⟩ := combine_some h
  obtain ⟨r2, hrow, hfind1, _⟩ := combineLoop_find_mem v (d, v) rv k vr hv hvk h1
  have hdk1 : dictFind (d, v).1 k = some dr := hdk
  rw [hdk1] at hrow
  obtain ⟨kv', hcf, hfind2⟩ := combineFinalLoop_find v rv.1 m k r2 h2 hfind1
  have hsome : (dictFind v k).isSome := by rw [hvk]; rfl
  have hkv' : kv' = (k, r2) := by
    simp [combineFinal, hsome] at hcf
    exact hcf.symm
  rw [hkv'] at hfind2
  cases hf : is_folder k with
  | none => simp [combineRow, hdd, hdv, hf] at hrow
  | some f =>
    by_cases hcmp : dd > dv <;>
      simp [combineRow, hdd, hdv, hf, hcmp] at hrow <;>
      rw [← hrow] at hfind2 <;>
      simp [hfind2, hcmp]

/-- Delete-marker map for the C3 witness. -/
def dC3 : Dict Row := [(xKey, { latest_modified := some 5 })]

/-- Version map for the C3 witness. -/
def vC3 : Dict Row := [(xKey, { latest_modified := some 3, total_size := some 10,
                                num_versions := some 1 })]

/-- Reconciled map for the C3 witness. -/
def mC3 : Dict Row :=
  [(xKey, { latest_modified := some 3, total_size := some 10, num_versions := some 1,
            status := some sDeleted, is_folder := some false,
            last_modified := some 5 })]

/-- Delete-summary row used by the C3 witness. -/
def drC3 : Row := { latest_modified := some 5 }

/-- Version-summary row used by the C3 witness. -/
def vrC3 : Row := { latest_modified := some 3, total_size := some 10, num_versions := some 1 }

theorem claim_C3_witness :
    (dictFind mC3 xKey).map Row.status = some (some sDeleted) ∧
    (dictFind mC3 xKey).map Row.last_modified = some (some 5) ∧
    (dictFind mC3 xKey).map Row.total_size = some (some 10) := by
  have h := claim_C3 dC3 vC3 mC3 xKey drC3 vrC3
    5 3 (by decide) rfl rfl rfl rfl (by decide)
  exact ⟨h.1, h.2.1 (by norm_num), h.2.2.1⟩

/-- Claim C4: a key that has a delete marker but no version summary is
forced to status "deleted" with zero total size and zero versions, and its
folder flag is recomputed from the key — whatever the marker's timestamp. -/
theorem claim_C4 (d v m : Dict Row) (k : String) (dr : Row)
    (hdk : dictFind d k = some dr) (hvk : dictFind v k = none)
    (h : combine_deleted_and_versions d v = some m) :
    (dictFind m k).map Row.status = some (some sDeleted) ∧
    (dictFind m k).map Row.total_size = some (some 0) ∧
    (dictFind m k).map Row.num_versions = some (some 0) ∧
    (dictFind m k).map Row.is_folder = some (is_folder k) := by
  obtain ⟨rv, h1, h2⟩ := combine_some h
  have hk_not : k ∉ dictKeys v := (dictFind_eq_none_iff v k).mp hvk
  have h3 := combineLoop_find_not_mem v (d, v) rv k hk_not h1
  have hfind1 : dictFind rv.1 k = some dr := by
    rw [h3.1]
    exact hdk
  obtain ⟨kv', hcf, hfind2⟩ := combineFinalLoop_find v rv.1 m k dr h2 hfind1
  have hnone : ¬ (dictFind v k).isSome := by rw [hvk]; simp
  cases hf : is_folder k with
  | none => simp [combineFinal, hnone, hf] at hcf
  | some f =>
    simp [combineFinal, hnone, hf] at hcf
    rw [← hcf] at hfind2
    simp [hfind2, hf]

/-- Delete-marker map for the C4 witness. -/
def dC4 : Dict Row := [(xKey, { latest_modified := some 7 })]

/-- Reconciled map for the C4 witness. -/
def mC4 : Dict Row :=
  [(xKey, { latest_modified := some 7, status := some sDeleted, is_folder := some false,
            total_size := some 0, num_versions := some 0 })]

theorem claim_C4_witness :
    (dictFind mC4 xKey).map Row.status = some (some sDeleted) ∧
    (dictFind mC4 xKey).map Row.total_size = some (some 0) ∧
    (dictFind mC4 xKey).map Row.num_versions = some (some 0) ∧
    (dictFind mC4 xKey).map Row.is_folder = some (is_folder xKey) :=
  claim_C4 dC4 [] mC4 xKey { latest_modified := some 7 } rfl rfl (by decide)

/-- Claim C9: the reconciler mutates its arguments through aliases.  In the
explicit-state embedding: for every key of `versions`, the post-call state
of the `versions` dict holds the very row stored in the returned map (the
two are one object in the source); that row is the original version summary
with only status, folder flag (and possibly `last_modified`) added, its
size, count and average fields untouched; and every `delete_markers` key is
still present in the returned map, which is the `delete_markers` object
itself after mutation. -/
theorem claim_C9 (d v m va : Dict Row) (hv : (dictKeys v).Nodup)
    (h : combine_deleted_and_versions_st d v = some (m, va)) :
    (∀ k, (dictFind v k).isSome → dictFind va k = dictFind m k) ∧
    (∀ k, (dictFind d k).isSome → (dictFind m k).isSome) ∧
    (∀ k r, dictFind v k = some r →
      (dictFind va k).map Row.latest_modified = some r.latest_modified ∧
      (dictFind va k).map Row.total_size = some r.total_size ∧
      (dictFind va k).map Row.num_versions = some r.num_versions ∧
      (dictFind va k).map Row.average_size = some r.average_size ∧
      (dictFind va k).map Row.latest_size = some r.latest_size ∧
      ((dictFind va k).bind Row.status).isSome ∧
      ((dictFind va k).bind Row.is_folder).isSome) := by
  obtain ⟨rv, h1, h2, hva⟩ := combine_st_some h
  have hva' : va = rv.2 := hva
  have hm : combineFinalLoop v rv.1 = some m := h2
  refine ⟨?_, ?_, ?_⟩
  · intro k hk
    obtain ⟨r, hr⟩ := Option.isSome_iff_exists.mp hk
    obtain ⟨r2, _, hfind1, hfind2⟩ := combineLoop_find_mem v (d, v) rv k r hv hr h1
    obtain ⟨kv', hcf, hfind3⟩ := combineFinalLoop_find v rv.1 m k r2 hm hfind1
    have hkv' : kv' = (k, r2) := by
      simp [combineFinal, Option.isSome_iff_exists.mpr ⟨r, hr⟩] at hcf
      exact hcf.symm
    rw [hkv'] at hfind3
    rw [hva', hfind2, hfind3]
  · intro k hk
    have hkd : k ∈ dictKeys d := (dictFind_isSome_iff d k).mp hk
    have hk1 : k ∈ dictKeys rv.1 := by
      rw [combineLoop_keys v (d, v) rv h1 k]
      exact Or.inl hkd
    have hkeys := combineFinalLoop_keys v rv.1 m hm
    rw [dictFind_isSome_iff, hkeys]
    exact hk1
  · intro k r hr
    obtain ⟨r2, hrow, _, hfind2⟩ := combineLoop_find_mem v (d, v) rv k r hv hr h1
    have hfields := combineRow_fields hrow
    rw [hva', hfind2]
    simp [hfields.1, hfields.2.1, hfields.2.2.1, hfields.2.2.2.1, hfields.2.2.2.2.1,
      hfields.2.2.2.2.2.1, hfields.2.2.2.2.2.2]

/-- Version-summary row used by the C9 witness. -/
def rC9 : Row := { latest_modified := some 3, total_size := some 10, num_versions := some 1 }

/-- Version map for the C9 witness. -/
def vC9 : Dict Row := [(yKey, rC9)]

/-- Reconciled map for the C9 witness. -/
def mC9 : Dict Row :=
  [(xKey, { latest_modified := some 5, status := some sDeleted, is_folder := some false,
            total_size := some 0, num_versions := some 0 }),
   (yKey, { latest_modified := some 3, total_size := some 10, num_versions := some 1,
            status := some sPresent, is_folder := some false })]

/-- Post-call state of the `versions` argument for the C9 witness. -/
def vaC9 : Dict Row :=
  [(yKey, { latest_modified := some 3, total_size := some 10, num_versions := some 1,
            status := some sPresent, is_folder := some false })]

theorem claim_C9_witness :
    dictFind vaC9 yKey = dictFind mC9 yKey ∧
    (dictFind mC9 xKey).isSome ∧
    (dictFind vaC9 yKey).map Row.total_size = some (some 10) ∧
    ((dictFind vaC9 yKey).bind Row.status).isSome := by
  have h := claim_C9 dC2 vC9 mC9 vaC9 (by decide) (by decide)
  have h3 := h.2.2 yKey rC9 rfl
  exact ⟨h.1 yKey (by decide), h.2.1 xKey (by decide), h3.2.1, h3.2.2.2.2.2.1⟩

/-- One summary bucket of `get_file_stats` (lines 192-203).  The deleted
bucket never gets a `latest_size` key; the present bucket starts with
`latest_size = 0`. -/
structure Bucket where
  num_files : Nat := 0
  num_versions : Nat := 0
  total_size : Nat := 0
  average_size : Rat := 0
  latest_size : Option Nat := none
  deriving DecidableEq

/-- The pair of buckets built by `get_file_stats`. -/
structure Stats where
  present : Bucket
  deleted : Bucket
  deriving DecidableEq

/-- The initial `retval` of `get_file_stats` (lines 192-203). -/
def statsInit : Stats := { present := { latest_size := some 0 }, deleted := {} }

/-- One iteration of the aggregation loop (lines 205-227): skip folders,
route by status, raise (`none`) on any other status; a present row missing
`latest_size` faults at `int + None` (line 218). -/
def statsStep (s : Stats) (kv : String × Row) : Option Stats := do
  let row := kv.2
  let f ← row.is_folder
  if f then some s
  else do
    let st ← row.status
    if st = sPresent then do
      let nv ← row.num_versions
      let ts ← row.total_size
      let ls ← row.latest_size
      let pls ← s.present.latest_size
      let p : Bucket :=
        { s.present with
            num_files := s.present.num_files + 1,
            num_versions := s.present.num_versions + nv,
            total_size := s.present.total_size + ts,
            latest_size := some (pls + ls) }
      some { s with present := p }
    else if st = sDeleted then do
      let nv ← row.num_versions
      let ts ← row.total_size
      let dl : Bucket :=
        { s.deleted with
            num_files := s.deleted.num_files + 1,
            num_versions := s.deleted.num_versions + nv,
            total_size := s.deleted.total_size + ts }
      some { s with deleted := dl }
    else none

/-- The aggregation loop over the reconciled entries. -/
def statsLoop : List (String × Row) → Stats → Option Stats
  | [], s => some s
  | kv :: rest, s =>
    match statsStep s kv with
    | none => none
    | some s1 => statsLoop rest s1

/-- The closing averages of `get_file_stats` (lines 229-239): for each
bucket, `average_size = total_size / num_versions` when the version count
is nonzero, else 0. -/
def statsFinal (s : Stats) : Stats :=
  let p : Bucket :=
    { s.present with average_size :=
        if s.present.num_versions ≠ 0
        then (s.present.total_size : Rat) / (s.present.num_versions : Rat) else 0 }
  let dl : Bucket :=
    { s.deleted with average_size :=
        if s.deleted.num_versions ≠ 0
        then (s.deleted.total_size : Rat) / (s.deleted.num_versions : Rat) else 0 }
  { present := p, deleted := dl }

/-- Source `get_file_stats` (lines 189-241). -/
def get_file_stats (data : Dict Row) : Option Stats :=
  (statsLoop data statsInit).map statsFinal

theorem statsStep_folder (s : Stats) (k : String) (r : Row)
    (hf : r.is_folder = some true) : statsStep s (k, r) = some s := by
  simp [statsStep, hf]

theorem statsLoop_append (l1 l2 : List (String × Row)) :
    ∀ s, statsLoop (l1 ++ l2) s = (statsLoop l1 s).bind (fun s1 => statsLoop l2 s1) := by
  induction l1 with
  | nil =>
    intro s
    simp [statsLoop]
  | cons kv rest ih =>
    intro s
    cases hs : statsStep s kv with
    | none => simp [statsLoop, hs]
    | some s1 => simp [statsLoop, hs, ih]

/-- Claim C5: a folder entry (is_folder = true) contributes nothing to
`get_file_stats` — inserting it anywhere in the input leaves the entire
result (both buckets, all fields, derived averages included) unchanged,
whatever the entry's status. -/
theorem claim_C5 (data1 data2 : Dict Row) (k : String) (r : Row)
    (hf : r.is_folder = some true) :
    get_file_stats (data1 ++ (k, r) :: data2) = get_file_stats (data1 ++ data2) := by
  unfold get_file_stats
  rw [statsLoop_append, statsLoop_append]
  cases h1 : statsLoop data1 statsInit with
  | none => simp
  | some s =>
    have h2 : statsLoop ((k, r) :: data2) s = statsLoop data2 s := by
      rw [statsLoop]
      rw [statsStep_folder s k r hf]
    simp [h2]

/-- Folder key used by the C5 witness. -/
def fKey : String := "f/"

/-- Folder row used by the C5 witness. -/
def folderRow : Row := { is_folder := some true }

theorem claim_C5_witness :
    get_file_stats [(fKey, folderRow)] = get_file_stats [] :=
  claim_C5 [] [] fKey folderRow rfl

theorem statsLoop_some_valid (l : List (String × Row)) :
    ∀ (s s' : Stats), statsLoop l s = some s' →
      ∀ kv ∈ l, kv.2.is_folder = some false →
        (kv.2.status = some sPresent ∨ kv.2.status = some sDeleted) ∧
        (kv.2.status = some sPresent → kv.2.latest_size.isSome) := by
  induction l with
  | nil =>
    intro s s' _ kv hkv
    simp at hkv
  | cons kv0 rest ih =>
    intro s s' h kv hkv hf
    cases hs : statsStep s kv0 with
    | none => simp [statsLoop, hs] at h
    | some s1 =>
      simp only [statsLoop, hs] at h
      rcases List.mem_cons.mp hkv with hkv | hkv
      · subst hkv
        simp only [statsStep, hf, Option.some_bind, Bool.false_eq_true, if_false] at hs
        cases hst : kv.2.status with
        | none => simp [hst] at hs
        | some st =>
          simp only [hst, Option.some_bind] at hs
          by_cases h1 : st = sPresent
          · subst h1
            refine ⟨Or.inl rfl, fun _ => ?_⟩
            cases hnv : kv.2.num_versions with
            | none => simp [hnv] at hs
            | some nv =>
              cases hts : kv.2.total_size with
              | none => simp [hnv, hts] at hs
              | some ts =>
                cases hls : kv.2.latest_size with
                | none => simp [hnv, hts, hls] at hs
                | some ls => simp [hls]
          · by_cases h2 : st = sDeleted
            · subst h2
              exact ⟨Or.inr rfl, fun hc => absurd hc (by decide)⟩
            · simp [h1, h2] at hs
      · exact ih s1 s' h kv hkv hf

theorem statsLoop_some_of_valid (l : List (String × Row)) :
    ∀ (s : Stats), s.present.latest_size.isSome →
      (∀ kv ∈ l, kv.2.is_folder.isSome ∧
        (kv.2.is_folder = some false →
          kv.2.status.isSome ∧ kv.2.num_versions.isSome ∧ kv.2.total_size.isSome)) →
      (∀ kv ∈ l, kv.2.is_folder = some false →
        (kv.2.status = some sPresent ∨ kv.2.status = some sDeleted) ∧
        (kv.2.status = some sPresent → kv.2.latest_size.isSome)) →
      (statsLoop l s).isSome := by
  induction l with
  | nil =>
    intro s _ _ _
    simp [statsLoop]
  | cons kv0 rest ih =>
    intro s hls hwf hval
    have hwf0 := hwf kv0 (List.mem_cons_self kv0 rest)
    have hval0 := hval kv0 (List.mem_cons_self kv0 rest)
    obtain ⟨f, hf⟩ := Option.isSome_iff_exists.mp hwf0.1
    cases f with
    | true =>
      rw [statsLoop, statsStep_folder s kv0.1 kv0.2 (by rw [← hf])]
      exact ih s hls (fun kv hkv => hwf kv (List.mem_cons_of_mem kv0 hkv))
        (fun kv hkv => hval kv (List.mem_cons_of_mem kv0 hkv))
    | false =>
      obtain ⟨hst, hnv, hts⟩ := hwf0.2 hf
      obtain ⟨st, hst'⟩ := Option.isSome_iff_exists.mp hst
      obtain ⟨nv, hnv'⟩ := Option.isSome_iff_exists.mp hnv
      obtain ⟨ts, hts'⟩ := Option.isSome_iff_exists.mp hts
      obtain ⟨pls, hpls⟩ := Option.isSome_iff_exists.mp hls
      rcases hval0 hf with ⟨hor, hpls2⟩
      rcases hor with hpre | hdel
      · obtain ⟨ls, hls'⟩ := Option.isSome_iff_exists.mp (hpls2 hpre)
        have hpre' : st = sPresent := by
          rw [hst'] at hpre
          injection hpre
        subst hpre'
        cases hstep : statsStep s kv0 with
        | none => simp [statsStep, hf, hst', hnv', hts', hls', hpls] at hstep
        | some s1 =>
          rw [statsLoop, hstep]
          have hls1 : s1.present.latest_size.isSome := by
            simp [statsStep, hf, hst', hnv', hts', hls', hpls] at hstep
            rw [← hstep]
            rfl
          refine ih s1 hls1 (fun kv hkv => hwf kv (List.mem_cons_of_mem kv0 hkv))
            (fun kv hkv => hval kv (List.mem_cons_of_mem kv0 hkv))
      · have hstd : st = sDeleted := by
          rw [hst'] at hdel
          injection hdel
        subst hstd
        have hne : ¬ (sDeleted = sPresent) := by decide
        cases hstep : statsStep s kv0 with
        | none => simp [statsStep, hf, hst', hnv', hts', hne] at hstep
        | some s1 =>
          rw [statsLoop, hstep]
          have hls1 : s1.present.latest_size.isSome := by
            simp [statsStep, hf, hst', hnv', hts', hne] at hstep
            rw [← hstep]
            simpa using hls
          refine ih s1 hls1 (fun kv hkv => hwf kv (List.mem_cons_of_mem kv0 hkv))
            (fun kv hkv => hval kv (List.mem_cons_of_mem kv0 hkv))

/-- Claim C6: for a map of well-formed reconciled entries (each has a
folder flag and, when not a folder, the status, count and size fields a
reconciled entry carries), `get_file_stats` completes exactly when every
non-folder entry's status is "present" or "deleted" and every present
non-folder entry has a recorded latest size; any other status, or a
missing latest size on a present entry, makes it raise instead of
returning a result. -/
theorem claim_C6 (data : Dict Row)
    (hwf : ∀ kv ∈ data, kv.2.is_folder.isSome ∧
      (kv.2.is_folder = some false →
        kv.2.status.isSome ∧ kv.2.num_versions.isSome ∧ kv.2.total_size.isSome)) :
    (get_file_stats data).isSome ↔
      ∀ kv ∈ data, kv.2.is_folder = some false →
        (kv.2.status = some sPresent ∨ kv.2.status = some sDeleted) ∧
        (kv.2.status = some sPresent → kv.2.latest_size.isSome) := by
  unfold get_file_stats
  have hiff : (Option.map statsFinal (statsLoop data statsInit)).isSome
      = (statsLoop data statsInit).isSome := by
    cases statsLoop data statsInit <;> rfl
  rw [hiff]
  constructor
  · intro h
    obtain ⟨s', hs'⟩ := Option.isSome_iff_exists.mp h
    exact statsLoop_some_valid data statsInit s' hs'
  · intro h
    exact statsLoop_some_of_valid data statsInit (by simp [statsInit]) hwf h

/-- A well-formed present row used by the C6 witness. -/
def presentRow : Row :=
  { is_folder := some false, status := some sPresent, num_versions := some 1,
    total_size := some 10, latest_size := some 10 }

theorem claim_C6_witness : (get_file_stats [(xKey, presentRow)]).isSome :=
  (claim_C6 [(xKey, presentRow)] (by decide)).mpr (by decide)

/-- Claim C7: in every result of `get_file_stats`, each bucket's
average size equals total size divided by version count when the count is
nonzero, and is 0 — with no division fault — when the count is zero. -/
theorem claim_C7 (data : Dict Row) (stats : Stats)
    (h : get_file_stats data = some stats) :
    (stats.present.num_versions ≠ 0 →
      stats.present.average_size =
        (stats.present.total_size : Rat) / (stats.present.num_versions : Rat)) ∧
    (stats.present.num_versions = 0 → stats.present.average_size = 0) ∧
    (stats.deleted.num_versions ≠ 0 →
      stats.deleted.average_size =
        (stats.deleted.total_size : Rat) / (stats.deleted.num_versions : Rat)) ∧
    (stats.deleted.num_versions = 0 → stats.deleted.average_size = 0) := by
  unfold get_file_stats at h
  rw [Option.map_eq_some'] at h
  obtain ⟨s, _, hfin⟩ := h
  subst hfin
  refine ⟨?_, ?_, ?_, ?_⟩ <;> intro hnum <;> simp [statsFinal] at hnum ⊢ <;> simp [hnum]

/-- The stats value of the C7 witness (aggregation of an empty map). -/
def s0C7 : Stats := { present := { latest_size := some 0 }, deleted := {} }

theorem claim_C7_witness :
    s0C7.present.average_size = 0 ∧ s0C7.deleted.average_size = 0 := by
  have h := claim_C7 [] s0C7 (by decide)
  exact ⟨h.2.1 rfl, h.2.2.2 rfl⟩

/-- The literal string "0" assigned when the present bucket is empty. -/
def sZero : String := "0"

/-- The string "100.0" expected by Scenario A. -/
def sHundred : String := "100.0"

/-- Rendering of an integer number of hundredths as Python renders the
float value cents/100 (at least one decimal digit, at most two, no
trailing zero in the second place). -/
def centsRepr (cents : Int) : String :=
  let n := cents / 100
  let c := cents % 100
  if c = 0 then toString n ++ ".0"
  else if c % 10 = 0 then toString n ++ "." ++ toString (c / 10)
  else if c < 10 then toString n ++ ".0" ++ toString c
  else toString n ++ "." ++ toString c

/-- Python `round` to the nearest integer, ties to even. -/
def roundHalfEven (q : Rat) : Int :=
  let f : Int := ⌊q⌋
  let r : Rat := q - (f : Rat)
  if r < 1 / 2 then f
  else if 1 / 2 < r then f + 1
  else if f % 2 = 0 then f else f + 1

/-- Python `str(round(q, 2))`: round to hundredths (ties to even) and
render the resulting two-decimal value. -/
def pyRoundStr2 (q : Rat) : String := centsRepr (roundHalfEven (q * 100))

/-- The `pct_used_by_latest` computation of `print_file_stats`
(lines 247-252): "0" when `total_size` is zero (falsy), otherwise
`str(round(latest_size / total_size * 100, 2))`; reading a missing
`latest_size` would raise. -/
def pct_used_by_latest (present : Bucket) : Option String :=
  if present.total_size ≠ 0 then
    match present.latest_size with
    | none => none
    | some ls => some (pyRoundStr2 ((ls : Rat) / (present.total_size : Rat) * 100))
  else some sZero

/-- The key of Scenario A. -/
def aTxt : String := "a.txt"

/-- The version summary produced for Scenario A's single version record. -/
def rowA : Row :=
  { latest_modified := some 1, total_size := some 100, num_versions := some 1,
    latest_size := some 100, average_size := some (100 : Rat) }

/-- Scenario A's reconciled entry. -/
def rowB : Row := { rowA with status := some sPresent, is_folder := some false }

/-- Scenario A's aggregated stats. -/
def statsA : Stats :=
  { present := { num_files := 1, num_versions := 1, total_size := 100,
                 average_size := (100 : Rat), latest_size := some 100 },
    deleted := {} }

/-- Scenario A of the spec, run through the whole pipeline: one version
record (key "a.txt", date 1, size 100, latest), no delete markers; the
observed present-bucket fields and percentage string. -/
def scenarioA : Option (Nat × Nat × Option Nat × Option String) := do
  let dm ← process_deletes []
  let vs ← process_versions [⟨aTxt, 1, 100, true⟩]
  let m ← combine_deleted_and_versions dm vs
  let stats ← get_file_stats m
  some (stats.present.num_files, stats.present.total_size, stats.present.latest_size,
    pct_used_by_latest stats.present)

/-- Claim C8: the present bucket's percentage equals
`str(round(latest_size / total_size * 100, 2))` when `total_size` is
positive and is the literal "0" when `total_size` is zero; and Scenario A
(one version of size 100, latest) yields num_files 1, total 100,
latest 100 and the string "100.0". -/
theorem claim_C8 :
    (∀ b : Bucket, b.total_size = 0 → pct_used_by_latest b = some sZero) ∧
    (∀ (b : Bucket) (ls : Nat), b.total_size ≠ 0 → b.latest_size = some ls →
      pct_used_by_latest b = some (pyRoundStr2 ((ls : Rat) / (b.total_size : Rat) * 100))) ∧
    scenarioA = some (1, 100, some 100, some sHundred) := by
  refine ⟨?_, ?_, ?_⟩
  · intro b hb
    simp [pct_used_by_latest, hb]
  · intro b ls hb hls
    simp [pct_used_by_latest, hb, hls]
  · have hfA : is_folder aTxt = some false := by decide
    have p2 : process_versions [⟨aTxt, 1, 100, true⟩] = some [(aTxt, rowA)] := by
      simp [process_versions, versionsLoop, averageLoop, dictFind, dictInsert, hfA, rowA]
    have p3 : combine_deleted_and_versions [] [(aTxt, rowA)] = some [(aTxt, rowB)] := by
      simp [combine_deleted_and_versions, combine_deleted_and_versions_st, combineLoop,
        combineStep, combineRow, combineFinalLoop, combineFinal, dictFind, dictInsert,
        hfA, rowA, rowB]
    have p4 : get_file_stats [(aTxt, rowB)] = some statsA := by
      simp [get_file_stats, statsLoop, statsStep, statsInit, statsFinal, rowB, rowA,
        statsA, sPresent]
    have h3 : roundHalfEven (10000 : Rat) = 10000 := by
      simp only [roundHalfEven]
      norm_num
    have p5 : pct_used_by_latest statsA.present = some sHundred := by
      have h4 : (100 : Rat) * 100 = (10000 : Rat) := by norm_num
      simp [pct_used_by_latest, statsA, pyRoundStr2]
      rw [h4, h3]
      decide
    have p1 : process_deletes [] = some [] := rfl
    simp [scenarioA, p1, p2, p3, p4, p5]
    decide

/-- Zero-size bucket for the C8 witness. -/
def bZeroC8 : Bucket := {}

/-- Nonzero bucket for the C8 witness. -/
def bC8 : Bucket := { total_size := 100, latest_size := some 50 }

theorem claim_C8_witness :
    pct_used_by_latest bZeroC8 = some sZero ∧
    pct_used_by_latest bC8 =
      some (pyRoundStr2 (((50 : Nat) : Rat) / (bC8.total_size : Rat) * 100)) := by
  have h := claim_C8
  exact ⟨h.1 bZeroC8 rfl, h.2.1 bC8 50 (by decide) rfl⟩

theorem get?_len_sub_one {α : Type} : ∀ (l : List α), l.get? (l.length - 1) = l.getLast? := by
  intro l
  induction l with
  | nil => rfl
  | cons a t ih =>
    cases t with
    | nil => rfl
    | cons b t2 =>
      have h1 : (a :: b :: t2).length - 1 = ((b :: t2).length - 1) + 1 := by
        simp [List.length]
      rw [h1]
      show (b :: t2).get? ((b :: t2).length - 1) = _
      rw [ih]
      rfl

/-- The empty key, on which `is_folder` faults. -/
def emptyStr : String := ""

/-- Claim C10: on every non-empty key, `is_folder` returns a boolean —
true exactly when the final character is the path separator — while on the
empty key the index `-1` is out of range and the function raises instead
of returning. -/
theorem claim_C10 :
    (∀ s : String, 1 ≤ s.length →
      (is_folder s).isSome ∧
      is_folder s = (s.data.getLast?).map (fun c => c == slash)) ∧
    is_folder emptyStr = none := by
  constructor
  · intro s h
    have hlen : s.data.length = s.length := rfl
    have h1 : ¬ (((s.length : Int) - 1) < 0) := by omega
    have h2 : ((s.length : Int) - 1).toNat = s.length - 1 := by omega
    have hlt : s.length - 1 < s.data.length := by
      rw [hlen]
      omega
    have hc : s.data[s.length - 1]? = some (s.data.get ⟨s.length - 1, hlt⟩) := by
      rw [List.getElem?_eq_getElem hlt]
      simp [List.get_eq_getElem]
    have heq : s.data.length - 1 = s.length - 1 := by omega
    have hg : s.data.getLast? = some (s.data.get ⟨s.length - 1, hlt⟩) := by
      rw [← get?_len_sub_one s.data, heq, List.get?_eq_getElem?, hc]
    constructor
    · simp [is_folder, pyStrIndex, h1, h2, hc]
    · simp [is_folder, pyStrIndex, h1, h2, hc, hg]
  · decide

/-- A non-empty folder key for the C10 witness. -/
def abKey : String := "a/"

theorem claim_C10_witness :
    is_folder abKey = some true ∧ is_folder emptyStr = none := by
  constructor
  · rw [(claim_C10.1 abKey (by decide)).2]
    decide
  · exact claim_C10.2

end S3Usage
